import Mathlib

/-!
Shallow embedding of `go/stats/timings.go` (Timings / MultiTimings timing
registries) from the vitess repository.

Modelling conventions:
  - Go `int64` counters and nanosecond durations are modelled as `Int`
    (no claim under consideration depends on 64-bit overflow).
  - The Go map `map[string]*Histogram` is modelled as an association list
    `List (String × Histogram)`; Go maps have unique keys, which the
    operations below preserve (lookup finds the first matching entry,
    update replaces the first matching entry, insertion appends a key that
    was just looked up and found absent).
  - Pointer mutation of a `*Histogram` held in the map is modelled by
    replacing the entry for that key with the updated histogram.
  - The RWMutex is erased: each exported operation is a pure state
    transition.  The mutex-protected critical section of `Timings.Add`
    (lines 83-89: re-check then insert) is `Timings.getOrCreateLocked`;
    concurrency claims are settled against arbitrary serializations of
    those atomic critical sections.
  - The statsd timer hook (`defaultStatsdHook.timerHook`) is external
    global state; whether it is configured is passed as a `Bool`, and the
    invocations an `Add` performs are returned as an explicit list.
-/

/-- Modelled from the spec: `StatsAllStr`, the fixed sentinel category
string substituted for combined dimensions; it is defined outside the
provided source.  Its value is the lower-case string, distinct from the
capitalized synthetic `"All"` key of `Counts()`. -/
def StatsAllStr : String := "all"

/-- Histogram, modelled from the spec (§4.1 external collaborator
contract): fixed cutoff list, one bucket per label (the last label is the
overflow bucket), a running observation count and a running total of
observed values.  `Add value` records into the bucket whose cutoff is the
smallest cutoff ≥ value, or the overflow bucket. -/
structure Histogram where
  name : String
  help : String
  cutoffs : List Int
  labels : List String
  buckets : List Int
  count : Int
  total : Int
  deriving DecidableEq, Repr

/-- Construction of a histogram: mirrors
`NewGenericHistogram(name, help, cutoffs, labels, countLabel, totalLabel)`
to the extent the spec fixes it: all buckets start at zero, as do the
aggregate count and total. -/
def NewGenericHistogram (name help : String) (cutoffs : List Int)
    (labels : List String) (countLabel totalLabel : String) : Histogram :=
  { name := name ++ countLabel ++ totalLabel, help := help
    cutoffs := cutoffs, labels := labels
    buckets := List.replicate labels.length 0
    count := 0, total := 0 }

/-- Index of the bucket receiving `v`: the first cutoff ≥ v, else the
overflow bucket (index = number of cutoffs). -/
def bucketIndex (cutoffs : List Int) (v : Int) : Nat :=
  cutoffs.findIdx fun c => v ≤ c

/-- Increment the bucket at the given index. -/
def bumpBucket : List Int → Nat → List Int
  | [], _ => []
  | c :: rest, 0 => (c + 1) :: rest
  | c :: rest, n + 1 => c :: bumpBucket rest n

/-- Histogram.Add, modelled from the spec: one observation lands in one
bucket, the observation count rises by one, the running total by the
observed value. -/
def Histogram.Add (h : Histogram) (v : Int) : Histogram :=
  { h with buckets := bumpBucket h.buckets (bucketIndex h.cutoffs v)
           count := h.count + 1
           total := h.total + v }

/-- Histogram.Count: total number of observations. -/
def Histogram.Count (h : Histogram) : Int := h.count

/-- The shared bucket cutoff list (`bucketCutoffs`, timings.go line 182). -/
def bucketCutoffs : List Int :=
  [500000, 1000000, 5000000, 10000000, 50000000,
   100000000, 500000000, 1000000000, 5000000000, 10000000000]

/-- The shared bucket label list, built exactly as the package `init`
function does (timings.go lines 186-192): the decimal rendering of each
cutoff, then a final `"inf"` label. -/
def bucketLabels : List String :=
  (bucketCutoffs.map fun v => toString v) ++ ["inf"]

/-- Association-list lookup mirroring `t.histograms[name]`. -/
def lookupH : List (String × Histogram) → String → Option Histogram
  | [], _ => none
  | p :: rest, k => if p.1 = k then some p.2 else lookupH rest k

/-- Replace the (unique) entry for a key, mirroring mutation through the
`*Histogram` pointer stored in the map. -/
def updateFirst : List (String × Histogram) → String → Histogram → List (String × Histogram)
  | [], _, _ => []
  | p :: rest, k, h => if p.1 = k then (k, h) :: rest else p :: updateFirst rest k h

/-- The Timings registry (timings.go lines 29-40).  `totalCount` and
`totalTime` are the atomic aggregate counters; `histograms` the
mutex-guarded category map; `labelCombined` stands for
`IsDimensionCombined(label)`, an external predicate, so it is carried as
the stored boolean the constructor computes. -/
structure Timings where
  totalCount : Int
  totalTime : Int
  histograms : List (String × Histogram)
  name : String
  help : String
  label : String
  labelCombined : Bool
  deriving DecidableEq, Repr

/-- NewTimings (timings.go lines 46-62).  `labelCombined` is the value of
the external `IsDimensionCombined(label)`, supplied as a parameter.  Each
category in `categories` is eagerly initialized to a fresh histogram.
Publication in the process-wide registry is an external side effect and is
not part of the returned state. -/
def NewTimings (name help label : String) (labelCombined : Bool)
    (categories : List String) : Timings :=
  { totalCount := 0, totalTime := 0
    histograms := categories.map fun cat =>
      (cat, NewGenericHistogram "" "" bucketCutoffs bucketLabels "Count" "Time")
    name := name, help := help, label := label
    labelCombined := labelCombined }

/-- Timings.Reset (timings.go lines 65-69): replaces the category map with
an empty one; nothing else changes. -/
def Timings.Reset (t : Timings) : Timings :=
  { t with histograms := [] }

/-- The mutex-protected critical section of Timings.Add (timings.go lines
83-89): under the exclusive lock, re-check the map and insert a fresh
histogram only if the category is still absent. -/
def Timings.getOrCreateLocked (t : Timings) (name : String) : Timings :=
  match lookupH t.histograms name with
  | some _ => t
  | none =>
      { t with histograms :=
          t.histograms ++ [(name, NewGenericHistogram "" "" bucketCutoffs bucketLabels "Count" "Time")] }

/-- One invocation of the external statsd timer hook
(`defaultStatsdHook.timerHook(t.name, name, elapsed.Milliseconds(), t)`,
timings.go line 92).  `registry` is the state the passed `*Timings`
pointer refers to at the moment of the call (category map already holding
the resolved category's histogram; aggregates not yet bumped). -/
structure HookCall where
  registryName : String
  category : String
  elapsedMillis : Int
  registry : Timings
  deriving DecidableEq, Repr

/-- Timings.Add (timings.go lines 72-99).  `hookConfigured` models
`defaultStatsdHook.timerHook != nil`; `elapsed` is the duration in
nanoseconds (`int64(elapsed)`); `elapsed.Milliseconds()` is
truncated division by 10^6.  Returns the new state and the list of hook
invocations performed. -/
def Timings.Add (t : Timings) (hookConfigured : Bool) (name0 : String)
    (elapsed : Int) : Timings × List HookCall :=
  let name := if t.labelCombined then StatsAllStr else name0
  let t1 := match lookupH t.histograms name with
    | some _ => t
    | none => t.getOrCreateLocked name
  let hist := (lookupH t1.histograms name).getD
    (NewGenericHistogram "" "" bucketCutoffs bucketLabels "Count" "Time")
  let calls := if hookConfigured = true ∧ t.name ≠ "" then
      [{ registryName := t.name, category := name
         elapsedMillis := Int.tdiv elapsed 1000000, registry := t1 }]
    else []
  ({ t1 with histograms := updateFirst t1.histograms name (hist.Add elapsed)
             totalCount := t1.totalCount + 1
             totalTime := t1.totalTime + elapsed }, calls)

/-- Timings.Record (timings.go lines 103-108): combined categories are
collapsed, then Add is called with `time.Since(startTime)`; the real-time
clock is outside the model, so the elapsed duration it would produce is a
parameter. -/
def Timings.Record (t : Timings) (hookConfigured : Bool) (name0 : String)
    (elapsed : Int) : Timings × List HookCall :=
  let name := if t.labelCombined then StatsAllStr else name0
  t.Add hookConfigured name elapsed

/-- Timings.Histograms (timings.go lines 133-141): a shallow copy of the
category map. -/
def Timings.Histograms (t : Timings) : List (String × Histogram) :=
  t.histograms.map fun p => (p.1, p.2)

/-- Timings.Count (timings.go lines 144-146). -/
def Timings.Count (t : Timings) : Int := t.totalCount

/-- Timings.Time (timings.go lines 149-151). -/
def Timings.Time (t : Timings) : Int := t.totalTime

/-- Timings.Counts (timings.go lines 154-164): one entry per category with
its histogram count, then `counts["All"] = totalCount`.  Go map assignment
overwrites: if a real category is literally named "All" its entry is
replaced by the synthetic one, which the filter-then-append models. -/
def Timings.Counts (t : Timings) : List (String × Int) :=
  ((t.histograms.map fun p => (p.1, p.2.Count)).filter fun p => p.1 ≠ "All")
    ++ [("All", t.totalCount)]

/-- Timings.Cutoffs (timings.go lines 168-170). -/
def Timings.Cutoffs (t : Timings) : List Int :=
  match t with | _ => bucketCutoffs

/-- Timings.Help (timings.go lines 173-175). -/
def Timings.Help (t : Timings) : String := t.help

/-- Timings.Label (timings.go lines 178-180). -/
def Timings.Label (t : Timings) : String := t.label

/-- The struct literal serialized by Timings.String (timings.go lines
115-123). -/
structure TimingsSnapshot where
  TotalCount : Int
  TotalTime : Int
  Histograms : List (String × Histogram)
  deriving DecidableEq, Repr

/-- Snapshot taken under the read lock in Timings.String. -/
def Timings.snapshot (t : Timings) : TimingsSnapshot :=
  { TotalCount := t.totalCount, TotalTime := t.totalTime
    Histograms := t.histograms }

/-- Modelled from the spec: JSON encoding of one character of a plain
string (backslash-escaping of the quote and backslash characters). -/
def jsonEscapeChar (c : Char) : String :=
  if c = '"' ∨ c = '\\' then "\\" ++ String.singleton c else String.singleton c

/-- Modelled from the spec: `json.Marshal` applied to a plain Go string
(the fallback `json.Marshal(err.Error())`), which cannot fail: the string
is quoted with its quote/backslash characters escaped. -/
def jsonEncodeString (s : String) : String :=
  "\"" ++ String.join (s.data.map jsonEscapeChar) ++ "\""

/-- Timings.String (timings.go lines 111-130).  `marshal` is the external
`json.Marshal` on the snapshot struct, returning either the encoded
payload or an error description (`err.Error()`); on error the encoding of
that description is returned instead. -/
def timingsString (marshal : TimingsSnapshot → Except String String)
    (t : Timings) : String :=
  match marshal t.snapshot with
  | Except.ok data => data
  | Except.error e => jsonEncodeString e

/-- Modelled from the spec: `strings.Join(·, ".")` as used by
safeJoinLabels. -/
def joinWithDot : List String → String
  | [] => ""
  | [s] => s
  | s :: rest@(_ :: _) => s ++ "." ++ joinWithDot rest

/-- Modelled from the spec: `safeJoinLabels(labels, combinedLabels)`,
defined outside the provided source.  Each value whose dimension is
combined is replaced by the sentinel, then the values are joined in
declared order with the `"."` separator; per the spec the separator is
chosen so it cannot be confused with dimension content (dimension values
carry no `'.'`). -/
def safeJoinLabels (labels : List String) (combined : List Bool) : String :=
  joinWithDot ((labels.zip combined).map fun p => if p.2 then StatsAllStr else p.1)

/-- MultiTimings (timings.go lines 197-201): an embedded Timings plus the
declared dimension names and their per-dimension combined flags. -/
structure MultiTimings where
  timings : Timings
  labels : List String
  combinedLabels : List Bool
  deriving DecidableEq, Repr

/-- NewMultiTimings (timings.go lines 204-224).  `combinedOf` stands for
the external `IsDimensionCombined` predicate evaluated per label.  Note
the embedded Timings literal sets no `labelCombined` field, so it is the
zero value `false`. -/
def NewMultiTimings (name help : String) (labels : List String)
    (combinedOf : String → Bool) : MultiTimings :=
  let combinedLabels := labels.map combinedOf
  { timings :=
      { totalCount := 0, totalTime := 0, histograms := []
        name := name, help := help
        label := safeJoinLabels labels combinedLabels
        labelCombined := false }
    labels := labels
    combinedLabels := combinedLabels }

/-- MultiTimings.Labels (timings.go lines 227-229). -/
def MultiTimings.Labels (mt : MultiTimings) : List String := mt.labels

/-- MultiTimings.Add (timings.go lines 232-237): panics on dimension-arity
mismatch before touching any state, modelled as `none`; otherwise the
joined compound key is passed to the embedded Timings.Add. -/
def MultiTimings.Add (mt : MultiTimings) (hookConfigured : Bool)
    (names : List String) (elapsed : Int) : Option (MultiTimings × List HookCall) :=
  if names.length ≠ mt.labels.length then none
  else
    let r := mt.timings.Add hookConfigured (safeJoinLabels names mt.combinedLabels) elapsed
    some ({ mt with timings := r.1 }, r.2)

/-- MultiTimings.Record (timings.go lines 241-246): same arity panic,
modelled as `none`; `elapsed` is the duration `time.Since(startTime)`
would produce in the embedded Timings.Record. -/
def MultiTimings.Record (mt : MultiTimings) (hookConfigured : Bool)
    (names : List String) (elapsed : Int) : Option (MultiTimings × List HookCall) :=
  if names.length ≠ mt.labels.length then none
  else
    let r := mt.timings.Record hookConfigured (safeJoinLabels names mt.combinedLabels) elapsed
    some ({ mt with timings := r.1 }, r.2)

/-- MultiTimings.Cutoffs (timings.go lines 250-252). -/
def MultiTimings.Cutoffs (mt : MultiTimings) : List Int :=
  match mt with | _ => bucketCutoffs

/-- Fold a sequence of Add calls over a Timings, keeping only the state
(hook invocations discarded). -/
def runAdds (hc : Bool) (t : Timings) (ops : List (String × Int)) : Timings :=
  ops.foldl (fun s p => (s.Add hc p.1 p.2).1) t

/-- Fold a sequence of executions of the locked critical section of Add
(one per caller concurrently first-observing a category; the mutex
serializes them in some order, here the list order). -/
def runCreates (t : Timings) (keys : List String) : Timings :=
  keys.foldl (fun s k => s.getOrCreateLocked k) t

/-- Number of map entries carrying a given key. -/
def countKey (k : String) (m : List (String × Histogram)) : Nat :=
  (m.filter fun p => p.1 = k).length

/-- Sum of the per-histogram observation counts of a category map. -/
def sumHistCounts (m : List (String × Histogram)) : Int :=
  (m.map fun p => p.2.count).sum

/-- Sum of the per-category counts reported by Counts(), excluding the
synthetic "All" entry. -/
def sumCountsExclAll (t : Timings) : Int :=
  ((t.Counts.filter fun p => p.1 ≠ "All").map Prod.snd).sum

/-- C4: the shared cutoff list is exactly the ascending sequence
5e5, 1e6, 5e6, 1e7, 5e7, 1e8, 5e8, 1e9, 5e9, 1e10; the label list has one
more element, ending in "inf", with each earlier label the decimal
rendering of the corresponding cutoff; Cutoffs() on both Timings and
MultiTimings returns this exact list. -/
theorem c4_bucket_cutoffs_and_labels :
    bucketCutoffs = [500000, 1000000, 5000000, 10000000, 50000000,
      100000000, 500000000, 1000000000, 5000000000, 10000000000] ∧
    List.Chain' (fun a b => a < b) bucketCutoffs ∧
    bucketLabels.length = bucketCutoffs.length + 1 ∧
    bucketLabels = ["500000", "1000000", "5000000", "10000000", "50000000",
      "100000000", "500000000", "1000000000", "5000000000", "10000000000", "inf"] ∧
    bucketLabels.getLast? = some "inf" ∧
    bucketLabels.take bucketCutoffs.length = (bucketCutoffs.map fun v => toString v) ∧
    (∀ t : Timings, t.Cutoffs = bucketCutoffs) ∧
    (∀ mt : MultiTimings, mt.Cutoffs = bucketCutoffs) :=
  ⟨rfl, by norm_num [bucketCutoffs, List.chain'_cons], by decide, by decide,
   by decide, by decide, fun _ => rfl, fun _ => rfl⟩

/-- C5: Reset() empties the category map (so Histograms() returns zero
entries) while Count() and Time() keep exactly their prior values; no
field other than the category map is modified. -/
theorem c5_reset_frame (t : Timings) :
    t.Reset.Histograms = [] ∧ t.Reset.Count = t.Count ∧
    t.Reset.Time = t.Time ∧ t.Reset = { t with histograms := [] } :=
  ⟨rfl, rfl, rfl, rfl⟩

/-- C9: Timings.String never propagates a serialization failure: when the
marshalling of the snapshot succeeds its payload is returned, and when it
fails the returned payload is the JSON encoding of the error's
description. -/
theorem c9_string_fallback (marshal : TimingsSnapshot → Except String String)
    (t : Timings) :
    (∀ d, marshal t.snapshot = Except.ok d → timingsString marshal t = d) ∧
    (∀ e, marshal t.snapshot = Except.error e →
      timingsString marshal t = jsonEncodeString e) := by
  constructor <;> intro x hx <;> simp [timingsString, hx]

/-- Witness for C9 at a concrete registry and a concretely failing
marshaller. -/
theorem c9_string_fallback_witness :
    timingsString (fun _ => Except.error "boom") (NewTimings "n" "h" "l" false [])
      = jsonEncodeString "boom" :=
  (c9_string_fallback (fun _ => Except.error "boom")
    (NewTimings "n" "h" "l" false [])).2 "boom" rfl

/-- C10 counterexample: a Timings freshly constructed with the optional
category list non-empty already holds a per-category histogram before any
Add or Record call, contradicting the claim for every freshly constructed
instance. -/
theorem c10_counterexample :
    (NewTimings "n" "h" "l" false ["c"]).Histograms ≠ [] ∧
    ((NewTimings "n" "h" "l" false ["c"]).Counts.filter fun p => p.1 ≠ "All") ≠ [] := by
  decide

/-- C10 amended: for instances constructed with no pre-initialized
categories (and for every MultiTimings, whose constructor takes none),
Histograms() and Counts() hold no per-category entries before any
Add/Record. -/
theorem c10_lazy_creation (n h l : String) (c : Bool) (labels : List String)
    (f : String → Bool) :
    (NewTimings n h l c []).Histograms = [] ∧
    ((NewTimings n h l c []).Counts.filter fun p => p.1 ≠ "All") = [] ∧
    (NewMultiTimings n h labels f).timings.Histograms = [] ∧
    ((NewMultiTimings n h labels f).timings.Counts.filter fun p => p.1 ≠ "All") = [] :=
  ⟨rfl, rfl, rfl, rfl⟩

/-- C3: MultiTimings.Add / MultiTimings.Record abort (panic, modelled as
`none`, producing no state change) exactly when the number of supplied
values differs from the declared dimension count; with matching arity they
never abort. -/
theorem c3_multi_arity (nm hp : String) (labels : List String)
    (f : String → Bool) (hc : Bool) (values : List String) (e1 e2 : Int) :
    (values.length ≠ labels.length →
      (NewMultiTimings nm hp labels f).Add hc values e1 = none ∧
      (NewMultiTimings nm hp labels f).Record hc values e2 = none) ∧
    (values.length = labels.length →
      ((NewMultiTimings nm hp labels f).Add hc values e1).isSome = true ∧
      ((NewMultiTimings nm hp labels f).Record hc values e2).isSome = true) := by
  have hl : (NewMultiTimings nm hp labels f).labels = labels := rfl
  constructor <;> intro h
  · exact ⟨by simp [MultiTimings.Add, hl, h], by simp [MultiTimings.Record, hl, h]⟩
  · exact ⟨by simp [MultiTimings.Add, hl, h], by simp [MultiTimings.Record, hl, h]⟩

/-- Witness for C3: a two-dimension MultiTimings rejects a one-value Add
and accepts a two-value Add. -/
theorem c3_multi_arity_witness :
    ((NewMultiTimings "n" "h" ["a", "b"] fun _ => false).Add false ["x"] 5 = none) ∧
    (((NewMultiTimings "n" "h" ["a", "b"] fun _ => false).Add false ["x", "y"] 5).isSome = true) :=
  ⟨((c3_multi_arity "n" "h" ["a", "b"] (fun _ => false) false ["x"] 5 5).1
      (by decide)).1,
   ((c3_multi_arity "n" "h" ["a", "b"] (fun _ => false) false ["x", "y"] 5 5).2
      (by decide)).1⟩

/-- C8 counterexample: with the hook configured but the registry
constructed with an empty name, Add performs no hook invocation, so the
claim "whenever the hook is configured, every Add invokes it exactly
once" is false. -/
theorem c8_counterexample :
    ((NewTimings "" "h" "l" false []).Add true "c" 5).2 = [] ∧
    ¬ ((NewTimings "" "h" "l" false []).Add true "c" 5).2.length = 1 := by
  decide

/-- C8 amended: whenever the hook is configured and the registry's name is
non-empty, every Add invokes the hook exactly once, with the registry
name, the resolved (possibly sentinel-replaced) category and the elapsed
time in whole (truncated) milliseconds; when the hook is not configured,
no Add on any registry ever invokes it. -/
theorem c8_hook_invocation (hc : Bool) (t : Timings) (c : String) (e : Int)
    (hname : t.name ≠ "") :
    (hc = true →
      (t.Add hc c e).2.map (fun call => (call.registryName, call.category, call.elapsedMillis))
        = [(t.name, if t.labelCombined then StatsAllStr else c, Int.tdiv e 1000000)]) ∧
    (hc = false → ∀ (s : Timings) (c' : String) (e' : Int), (s.Add hc c' e').2 = []) := by
  constructor
  · intro h; subst h; simp [Timings.Add, hname]
  · intro h; subst h; intro s c' e'; simp [Timings.Add]

/-- Witness for C8: a named registry with the hook configured records one
invocation carrying the name, the category and 7 whole milliseconds for a
7.5ms duration. -/
theorem c8_hook_invocation_witness :
    ((NewTimings "n" "h" "l" false []).Add true "q" 7500000).2.map
        (fun call => (call.registryName, call.category, call.elapsedMillis))
      = [("n", "q", 7)] :=
  (c8_hook_invocation true (NewTimings "n" "h" "l" false []) "q" 7500000
    (by decide)).1 rfl

/-- Auxiliary for the compound-key lemma: two separator-free lists of
different lengths cannot satisfy the swapped-join equation. -/
theorem sep_swap_aux {α : Type} (sep : α) (x y : List α) (hy : sep ∉ y)
    (hlen : x.length < y.length) (h : x ++ sep :: y = y ++ sep :: x) : False := by
  have hx_pre : x <+: y ++ sep :: x := ⟨sep :: y, h⟩
  have hy_pre : y <+: y ++ sep :: x := List.prefix_append y (sep :: x)
  obtain ⟨t, ht⟩ := List.prefix_of_prefix_length_le hx_pre hy_pre (Nat.le_of_lt hlen)
  subst ht
  rw [List.append_assoc] at h
  have h2 : sep :: (x ++ t) = t ++ sep :: x := List.append_cancel_left h
  cases t with
  | nil => simp at hlen
  | cons c ts =>
      injection h2 with h3 _
      exact hy (by simp [h3])

/-- A separator occurring in neither side can be swapped around only when
the two sides are equal. -/
theorem sep_swap {α : Type} (sep : α) (x y : List α) (hx : sep ∉ x)
    (hy : sep ∉ y) (h : x ++ sep :: y = y ++ sep :: x) : x = y := by
  rcases Nat.lt_trichotomy x.length y.length with hl | hl | hl
  · exact (sep_swap_aux sep x y hy hl h).elim
  · exact (List.append_inj h hl).1
  · exact (sep_swap_aux sep y x hx hl h.symm).elim

/-- C6: the compound-key join used by MultiTimings.Add is a deterministic
function of the ordered (sentinel-replaced) value tuple, and for two
distinct dimension values (separator-free, per the spec's contract that
the separator cannot be confused with dimension content) the two orders
produce different compound keys. -/
theorem c6_compound_key (cl : List Bool) (v w : List String) (a b : String)
    (hab : a ≠ b) (ha : '.' ∉ a.data) (hb : '.' ∉ b.data) :
    (v = w → safeJoinLabels v cl = safeJoinLabels w cl) ∧
    safeJoinLabels [a, b] [false, false] ≠ safeJoinLabels [b, a] [false, false] := by
  refine ⟨fun hvw => by rw [hvw], fun hkey => ?_⟩
  have h1 : safeJoinLabels [a, b] [false, false] = a ++ "." ++ b := by
    simp [safeJoinLabels, joinWithDot]
  have h2 : safeJoinLabels [b, a] [false, false] = b ++ "." ++ a := by
    simp [safeJoinLabels, joinWithDot]
  rw [h1, h2] at hkey
  have hdata : a.data ++ '.' :: b.data = b.data ++ '.' :: a.data := by
    have hd := congrArg String.data hkey
    simpa using hd
  exact hab (String.ext (sep_swap '.' a.data b.data ha hb hdata))

/-- Witness for C6 at two concrete separator-free values. -/
theorem c6_compound_key_witness :
    safeJoinLabels ["x", "y"] [false, false] ≠ safeJoinLabels ["y", "x"] [false, false] :=
  (c6_compound_key [] [] [] "x" "y" (by decide) (by decide) (by decide)).2

/-- Lookup misses exactly when no entry carries the key. -/
theorem lookupH_eq_none_iff (m : List (String × Histogram)) (k : String) :
    lookupH m k = none ↔ ∀ p ∈ m, p.1 ≠ k := by
  induction m with
  | nil => simp [lookupH]
  | cons p rest ih => by_cases hp : p.1 = k <;> simp [lookupH, hp, ih]

/-- Unfolding of countKey over a cons cell. -/
theorem countKey_cons (k : String) (p : String × Histogram)
    (rest : List (String × Histogram)) :
    countKey k (p :: rest) = (if p.1 = k then 1 else 0) + countKey k rest := by
  by_cases hp : p.1 = k <;> simp [countKey, List.filter_cons, hp, Nat.add_comm]

/-- A key is absent exactly when it has zero entries. -/
theorem countKey_zero_iff (m : List (String × Histogram)) (k : String) :
    countKey k m = 0 ↔ lookupH m k = none := by
  induction m with
  | nil => simp [countKey, lookupH]
  | cons p rest ih =>
      rw [countKey_cons]
      by_cases hp : p.1 = k <;> simp [lookupH, hp, ih]

/-- countKey across appending a single entry. -/
theorem countKey_append_single (m : List (String × Histogram)) (key k : String)
    (h : Histogram) :
    countKey k (m ++ [(key, h)]) = countKey k m + (if key = k then 1 else 0) := by
  by_cases hk : key = k <;> simp [countKey, List.filter_append, hk]

/-- updateFirst does not change the key sequence of the map. -/
theorem updateFirst_keys (m : List (String × Histogram)) (k : String) (h : Histogram) :
    (updateFirst m k h).map Prod.fst = m.map Prod.fst := by
  induction m with
  | nil => rfl
  | cons p rest ih => by_cases hp : p.1 = k <;> simp [updateFirst, hp, ih]

/-- Replacing the looked-up entry changes the count sum by the count
difference of that entry. -/
theorem sumHistCounts_updateFirst (m : List (String × Histogram)) (k : String)
    (h0 h' : Histogram) (hl : lookupH m k = some h0) :
    sumHistCounts (updateFirst m k h') = sumHistCounts m - h0.count + h'.count := by
  induction m with
  | nil => simp [lookupH] at hl
  | cons p rest ih =>
      by_cases hp : p.1 = k
      · simp [lookupH, hp] at hl
        subst hl
        simp [updateFirst, hp, sumHistCounts]
        ring
      · simp [lookupH, hp] at hl
        have := ih hl
        simp [updateFirst, hp, sumHistCounts] at this ⊢
        omega

/-- Appending a fresh key then looking it up finds it. -/
theorem lookupH_append_of_none (m : List (String × Histogram)) (k : String)
    (h : Histogram) (hl : lookupH m k = none) :
    lookupH (m ++ [(k, h)]) k = some h := by
  induction m with
  | nil => simp [lookupH]
  | cons p rest ih =>
      by_cases hp : p.1 = k
      · simp [lookupH, hp] at hl
      · simp [lookupH, hp] at hl ⊢
        exact ih hl

/-- Updating a freshly appended key rewrites exactly that entry. -/
theorem updateFirst_append_of_none (m : List (String × Histogram)) (k : String)
    (h h' : Histogram) (hl : lookupH m k = none) :
    updateFirst (m ++ [(k, h)]) k h' = m ++ [(k, h')] := by
  induction m with
  | nil => simp [updateFirst]
  | cons p rest ih =>
      by_cases hp : p.1 = k
      · simp [lookupH, hp] at hl
      · simp [lookupH, hp] at hl
        simp [updateFirst, hp, ih hl]

/-- Frame facts about one Add call: aggregates rise by one observation and
its duration; the registry name and combined flag are untouched. -/
theorem Add_fields (t : Timings) (hc : Bool) (c : String) (e : Int) :
    (t.Add hc c e).1.totalCount = t.totalCount + 1 ∧
    (t.Add hc c e).1.totalTime = t.totalTime + e ∧
    (t.Add hc c e).1.labelCombined = t.labelCombined ∧
    (t.Add hc c e).1.name = t.name := by
  cases hl : lookupH t.histograms (if t.labelCombined then StatsAllStr else c) <;>
    simp [Timings.Add, Timings.getOrCreateLocked, hl]

/-- One Add call raises the sum of per-histogram counts by exactly one,
whether the category's histogram pre-existed or was just created. -/
theorem Add_sumHistCounts (t : Timings) (hc : Bool) (c : String) (e : Int) :
    sumHistCounts (t.Add hc c e).1.histograms = sumHistCounts t.histograms + 1 := by
  cases hl : lookupH t.histograms (if t.labelCombined then StatsAllStr else c) with
  | some h0 =>
      have hs := sumHistCounts_updateFirst t.histograms
        (if t.labelCombined then StatsAllStr else c) h0 (h0.Add e) hl
      have hcnt : (h0.Add e).count = h0.count + 1 := rfl
      simp only [Timings.Add, hl, Option.getD_some]
      rw [hs, hcnt]
      ring
  | none =>
      have h1 := lookupH_append_of_none t.histograms
        (if t.labelCombined then StatsAllStr else c)
        (NewGenericHistogram "" "" bucketCutoffs bucketLabels "Count" "Time") hl
      have h2 := updateFirst_append_of_none t.histograms
        (if t.labelCombined then StatsAllStr else c)
        (NewGenericHistogram "" "" bucketCutoffs bucketLabels "Count" "Time")
        ((NewGenericHistogram "" "" bucketCutoffs bucketLabels "Count" "Time").Add e) hl
      simp only [Timings.Add, Timings.getOrCreateLocked, hl]
      rw [h1]
      simp only [Option.getD_some]
      rw [h2]
      have hz : ((NewGenericHistogram "" "" bucketCutoffs bucketLabels "Count" "Time").Add e).count = 1 := rfl
      simp [sumHistCounts, hz]

/-- One Add call either keeps the key sequence or appends the resolved
category at its end. -/
theorem Add_keys (t : Timings) (hc : Bool) (c : String) (e : Int) :
    (t.Add hc c e).1.histograms.map Prod.fst = t.histograms.map Prod.fst ∨
    (t.Add hc c e).1.histograms.map Prod.fst
      = t.histograms.map Prod.fst ++ [if t.labelCombined then StatsAllStr else c] := by
  cases hl : lookupH t.histograms (if t.labelCombined then StatsAllStr else c) with
  | some h0 =>
      left
      simp [Timings.Add, hl, updateFirst_keys]
  | none =>
      right
      have h1 := lookupH_append_of_none t.histograms
        (if t.labelCombined then StatsAllStr else c)
        (NewGenericHistogram "" "" bucketCutoffs bucketLabels "Count" "Time") hl
      have h2 := updateFirst_append_of_none t.histograms
        (if t.labelCombined then StatsAllStr else c)
        (NewGenericHistogram "" "" bucketCutoffs bucketLabels "Count" "Time")
        ((NewGenericHistogram "" "" bucketCutoffs bucketLabels "Count" "Time").Add e) hl
      simp only [Timings.Add, Timings.getOrCreateLocked, hl]
      rw [h1]
      simp only [Option.getD_some]
      rw [h2]
      simp

/-- Unfolding of runAdds over a cons cell. -/
theorem runAdds_cons (hc : Bool) (t : Timings) (p : String × Int)
    (rest : List (String × Int)) :
    runAdds hc t (p :: rest) = runAdds hc (t.Add hc p.1 p.2).1 rest := rfl

/-- Aggregate invariant along any Add sequence: total count and the sum of
per-histogram counts both advance by the number of calls, and the
combined flag is stable. -/
theorem runAdds_invariant (hc : Bool) (ops : List (String × Int)) :
    ∀ t : Timings,
    (runAdds hc t ops).totalCount = t.totalCount + ops.length ∧
    sumHistCounts (runAdds hc t ops).histograms
      = sumHistCounts t.histograms + ops.length ∧
    (runAdds hc t ops).labelCombined = t.labelCombined := by
  induction ops with
  | nil => intro t; simp [runAdds]
  | cons p rest ih =>
      intro t
      have h1 := Add_fields t hc p.1 p.2
      have h2 := Add_sumHistCounts t hc p.1 p.2
      have ih' := ih (t.Add hc p.1 p.2).1
      rw [runAdds_cons]
      refine ⟨?_, ?_, ?_⟩
      · rw [ih'.1, h1.1, List.length_cons]; push_cast; ring
      · rw [ih'.2.1, h2, List.length_cons]; push_cast; ring
      · rw [ih'.2.2, h1.2.2.1]

/-- Along any Add sequence on a non-combined registry whose categories all
differ from "All", every map key differs from "All". -/
theorem runAdds_keys_notAll (hc : Bool) (ops : List (String × Int)) :
    ∀ t : Timings, t.labelCombined = false →
    (∀ q ∈ ops, q.1 ≠ "All") →
    (∀ k ∈ t.histograms.map Prod.fst, k ≠ "All") →
    ∀ k ∈ (runAdds hc t ops).histograms.map Prod.fst, k ≠ "All" := by
  induction ops with
  | nil => intro t _ _ hk; simpa [runAdds] using hk
  | cons p rest ih =>
      intro t hcomb hops hk
      rw [runAdds_cons]
      apply ih (t.Add hc p.1 p.2).1
      · rw [(Add_fields t hc p.1 p.2).2.2.1, hcomb]
      · exact fun q hq => hops q (List.mem_cons_of_mem _ hq)
      · intro k hkmem
        rcases Add_keys t hc p.1 p.2 with he | he
        · rw [he] at hkmem
          exact hk k hkmem
        · rw [he] at hkmem
          rcases List.mem_append.mp hkmem with hmem | hmem
          · exact hk k hmem
          · simp [hcomb] at hmem
            subst hmem
            exact hops p (List.mem_cons_self p rest)

/-- When no map key equals "All", the per-category counts reported by
Counts() excluding the synthetic entry sum to the per-histogram count
sum. -/
theorem sumCountsExclAll_eq (t : Timings)
    (hk : ∀ k ∈ t.histograms.map Prod.fst, k ≠ "All") :
    sumCountsExclAll t = sumHistCounts t.histograms := by
  unfold sumCountsExclAll Timings.Counts
  rw [List.filter_append]
  have h1 : ((t.histograms.map fun p => (p.1, p.2.Count)).filter fun p => p.1 ≠ "All")
      = t.histograms.map fun p => (p.1, p.2.Count) := by
    rw [List.filter_eq_self]
    intro a ha
    obtain ⟨p, hp, rfl⟩ := List.mem_map.mp ha
    simpa using hk p.1 (List.mem_map_of_mem Prod.fst hp)
  simp only [h1]
  simp [sumHistCounts, Histogram.Count, List.map_map, Function.comp]
  rfl

/-- C1 counterexample: a single Add under the literal category "All" makes
Count() equal one while the per-category counts of Counts() excluding the
synthetic "All" entry sum to zero (the synthetic entry overwrites the real
category "All" in the Go map), so the claim fails as stated. -/
theorem c1_counterexample :
    (runAdds false (NewTimings "n" "h" "l" false []) [("All", 0)]).Count = 1 ∧
    sumCountsExclAll (runAdds false (NewTimings "n" "h" "l" false []) [("All", 0)]) = 0 := by
  decide

/-- C1 amended: for every finite Add sequence on a non-combined Timings
with no pre-initialized categories, in which no category argument is the
literal string "All", Count() equals the sum of the per-category counts of
Counts() excluding the synthetic "All" entry, and both equal the number of
Add calls. -/
theorem c1_count_equals_sum (n h l : String) (hc : Bool)
    (ops : List (String × Int)) (hAll : ∀ q ∈ ops, q.1 ≠ "All") :
    (runAdds hc (NewTimings n h l false []) ops).Count = (ops.length : Int) ∧
    sumCountsExclAll (runAdds hc (NewTimings n h l false []) ops) = (ops.length : Int) ∧
    (runAdds hc (NewTimings n h l false []) ops).Count
      = sumCountsExclAll (runAdds hc (NewTimings n h l false []) ops) := by
  have hinv := runAdds_invariant hc ops (NewTimings n h l false [])
  have hkeys := runAdds_keys_notAll hc ops (NewTimings n h l false []) rfl hAll
    (by simp [NewTimings])
  have hsum := sumCountsExclAll_eq _ hkeys
  have h0c : (NewTimings n h l false []).totalCount = 0 := rfl
  have h0s : sumHistCounts (NewTimings n h l false []).histograms = 0 := rfl
  have hc1 : (runAdds hc (NewTimings n h l false []) ops).Count = (ops.length : Int) := by
    simp only [Timings.Count]
    rw [hinv.1, h0c, zero_add]
  have hc2 : sumCountsExclAll (runAdds hc (NewTimings n h l false []) ops)
      = (ops.length : Int) := by
    rw [hsum, hinv.2.1, h0s, zero_add]
  exact ⟨hc1, hc2, by rw [hc1, hc2]⟩

/-- Witness for C1 on the spec's worked example: two reads and one write
give three observations on both sides of the identity. -/
theorem c1_count_equals_sum_witness :
    (runAdds false (NewTimings "q" "help" "op" false [])
      [("read", 2000000), ("read", 2000000), ("write", 1000000)]).Count = (3 : Int) ∧
    sumCountsExclAll (runAdds false (NewTimings "q" "help" "op" false [])
      [("read", 2000000), ("read", 2000000), ("write", 1000000)]) = (3 : Int) ∧
    (runAdds false (NewTimings "q" "help" "op" false [])
      [("read", 2000000), ("read", 2000000), ("write", 1000000)]).Count
      = sumCountsExclAll (runAdds false (NewTimings "q" "help" "op" false [])
          [("read", 2000000), ("read", 2000000), ("write", 1000000)]) :=
  c1_count_equals_sum "q" "help" "op" false
    [("read", 2000000), ("read", 2000000), ("write", 1000000)] (by decide)

/-- On a combined registry the supplied category is dead: it is replaced
by the sentinel before any use, so Add is independent of it. -/
theorem Add_combined_indep (t : Timings) (hc : Bool) (e : Int)
    (hcomb : t.labelCombined = true) (c c' : String) :
    t.Add hc c e = t.Add hc c' e := by
  simp [Timings.Add, hcomb]

/-- On a combined registry, one Add always leaves the category map a
singleton holding the sentinel category, starting from the empty map or
from such a singleton. -/
theorem Add_combined_shape (t : Timings) (hc : Bool) (c : String) (e : Int)
    (hcomb : t.labelCombined = true)
    (hshape : t.histograms = [] ∨ ∃ h0, t.histograms = [(StatsAllStr, h0)]) :
    ∃ h1, (t.Add hc c e).1.histograms = [(StatsAllStr, h1)] := by
  rcases hshape with he | ⟨h0, he⟩
  · exact ⟨(NewGenericHistogram "" "" bucketCutoffs bucketLabels "Count" "Time").Add e,
      by simp [Timings.Add, Timings.getOrCreateLocked, he, hcomb, lookupH, updateFirst]⟩
  · exact ⟨h0.Add e,
      by simp [Timings.Add, he, hcomb, lookupH, updateFirst]⟩

/-- Category-independence of whole Add sequences on a combined registry. -/
theorem runAdds_combined_indep (hc : Bool) (f : String → String)
    (ops : List (String × Int)) :
    ∀ t : Timings, t.labelCombined = true →
    runAdds hc t (ops.map fun p => (f p.1, p.2)) = runAdds hc t ops := by
  induction ops with
  | nil => intro t _; rfl
  | cons p rest ih =>
      intro t hcomb
      simp only [List.map_cons, runAdds_cons]
      rw [Add_combined_indep t hc p.2 hcomb (f p.1) p.1]
      exact ih (t.Add hc p.1 p.2).1
        (((Add_fields t hc p.1 p.2).2.2.1).trans hcomb)

/-- The singleton sentinel shape survives any Add sequence on a combined
registry. -/
theorem runAdds_combined_one (hc : Bool) (ops : List (String × Int)) :
    ∀ t : Timings, t.labelCombined = true →
    (∃ h0, t.histograms = [(StatsAllStr, h0)]) →
    ∃ h1, (runAdds hc t ops).histograms = [(StatsAllStr, h1)] := by
  induction ops with
  | nil => intro t _ hs; exact hs
  | cons p rest ih =>
      intro t hcomb hs
      rw [runAdds_cons]
      exact ih (t.Add hc p.1 p.2).1
        (((Add_fields t hc p.1 p.2).2.2.1).trans hcomb)
        (Add_combined_shape t hc p.1 p.2 hcomb (Or.inr hs))

/-- The category map of a combined registry started empty is always empty
or the sentinel singleton. -/
theorem runAdds_combined_le_one (hc : Bool) (ops : List (String × Int)) :
    ∀ t : Timings, t.labelCombined = true →
    (t.histograms = [] ∨ ∃ h0, t.histograms = [(StatsAllStr, h0)]) →
    (runAdds hc t ops).histograms = []
      ∨ ∃ h1, (runAdds hc t ops).histograms = [(StatsAllStr, h1)] := by
  induction ops with
  | nil => intro t _ hs; exact hs
  | cons p rest ih =>
      intro t hcomb hs
      rw [runAdds_cons]
      exact ih (t.Add hc p.1 p.2).1
        (((Add_fields t hc p.1 p.2).2.2.1).trans hcomb)
        (Or.inr (Add_combined_shape t hc p.1 p.2 hcomb hs))

/-- Counts() key sequence of a sentinel-singleton registry. -/
theorem counts_keys_singleton (t : Timings) (h1 : Histogram)
    (hh : t.histograms = [(StatsAllStr, h1)]) :
    t.Counts.map Prod.fst = [StatsAllStr, "All"] := by
  simp [Timings.Counts, hh, StatsAllStr]

/-- C2: on a combined Timings any Add sequence leaves at most one map
entry (the sentinel category), a non-empty sequence leaves exactly one, so
Counts() reports exactly one real category plus the synthetic "All"
entry, and the supplied category values never influence the resulting
state. -/
theorem c2_combined_sentinel (n h l : String) (hc : Bool) (f : String → String)
    (ops : List (String × Int)) (hne : ops ≠ []) :
    runAdds hc (NewTimings n h l true []) (ops.map fun p => (f p.1, p.2))
      = runAdds hc (NewTimings n h l true []) ops ∧
    (∀ ops' : List (String × Int),
      (runAdds hc (NewTimings n h l true []) ops').histograms.length ≤ 1) ∧
    (runAdds hc (NewTimings n h l true []) ops).histograms.length = 1 ∧
    (∀ p ∈ (runAdds hc (NewTimings n h l true []) ops).histograms,
      p.1 = StatsAllStr) ∧
    (runAdds hc (NewTimings n h l true []) ops).Counts.map Prod.fst
      = [StatsAllStr, "All"] := by
  have hshape0 : (NewTimings n h l true []).histograms = []
      ∨ ∃ h0, (NewTimings n h l true []).histograms = [(StatsAllStr, h0)] :=
    Or.inl rfl
  have hone : ∃ h1, (runAdds hc (NewTimings n h l true []) ops).histograms
      = [(StatsAllStr, h1)] := by
    obtain ⟨p, rest, rfl⟩ := List.exists_cons_of_ne_nil hne
    rw [runAdds_cons]
    exact runAdds_combined_one hc rest _
      (((Add_fields _ hc p.1 p.2).2.2.1).trans rfl)
      (Add_combined_shape _ hc p.1 p.2 rfl hshape0)
  obtain ⟨h1, hh⟩ := hone
  refine ⟨runAdds_combined_indep hc f ops _ rfl, ?_, ?_, ?_, ?_⟩
  · intro ops'
    rcases runAdds_combined_le_one hc ops' _ rfl hshape0 with he | ⟨h2, he⟩ <;>
      simp [he]
  · simp [hh]
  · intro p hp
    rw [hh] at hp
    simp at hp
    rw [hp]
  · exact counts_keys_singleton _ h1 hh

/-- Witness for C2 on a concrete combined registry, a concrete category
renaming and a concrete two-call sequence. -/
theorem c2_combined_sentinel_witness :
    runAdds false (NewTimings "q" "h" "x" true [])
        ([("a", 1), ("b", 2)].map fun p => (p.1 ++ "z", p.2))
      = runAdds false (NewTimings "q" "h" "x" true []) [("a", 1), ("b", 2)] ∧
    (runAdds false (NewTimings "q" "h" "x" true []) [("a", 1), ("b", 2)]).histograms.length = 1 ∧
    (runAdds false (NewTimings "q" "h" "x" true []) [("a", 1), ("b", 2)]).Counts.map Prod.fst
      = [StatsAllStr, "All"] :=
  ⟨(c2_combined_sentinel "q" "h" "x" false (fun s => s ++ "z") [("a", 1), ("b", 2)]
      (by decide)).1,
   (c2_combined_sentinel "q" "h" "x" false (fun s => s ++ "z") [("a", 1), ("b", 2)]
      (by decide)).2.2.1,
   (c2_combined_sentinel "q" "h" "x" false (fun s => s ++ "z") [("a", 1), ("b", 2)]
      (by decide)).2.2.2.2⟩

/-- Unfolding of runCreates over a cons cell. -/
theorem runCreates_cons (t : Timings) (key : String) (rest : List String) :
    runCreates t (key :: rest) = runCreates (t.getOrCreateLocked key) rest := rfl

/-- Per-key entry count after an arbitrary serialization of locked
get-or-create sections: a key already present keeps its entry count, an
absent key ends with exactly one entry when some section asked for it. -/
theorem runCreates_countKey (keys : List String) :
    ∀ (t : Timings) (k : String),
    countKey k (runCreates t keys).histograms =
      if countKey k t.histograms = 0 then (if k ∈ keys then 1 else 0)
      else countKey k t.histograms := by
  induction keys with
  | nil =>
      intro t k
      by_cases h : countKey k t.histograms = 0 <;> simp [runCreates, h]
  | cons key rest ih =>
      intro t k
      rw [runCreates_cons, ih]
      cases hl : lookupH t.histograms key with
      | some h0 =>
          have ht' : t.getOrCreateLocked key = t := by
            simp [Timings.getOrCreateLocked, hl]
          rw [ht']
          by_cases hk : k = key
          · subst hk
            have hnz : countKey k t.histograms ≠ 0 := by
              simp [countKey_zero_iff, hl]
            simp [hnz]
          · simp [List.mem_cons, hk]
      | none =>
          have ht' : (t.getOrCreateLocked key).histograms = t.histograms
              ++ [(key, NewGenericHistogram "" "" bucketCutoffs bucketLabels "Count" "Time")] := by
            simp [Timings.getOrCreateLocked, hl]
          rw [ht', countKey_append_single]
          have hck0 : countKey key t.histograms = 0 := (countKey_zero_iff _ _).mpr hl
          by_cases hk : k = key
          · subst hk
            simp [hck0, List.mem_cons]
          · have hk' : ¬key = k := fun hh => hk hh.symm
            simp [hk, hk', List.mem_cons]

/-- C7: when many concurrent callers each run the first Add for a
brand-new category, the double-checked locked section of Add creates and
inserts exactly one histogram per distinct category: whatever order the
mutex serializes the critical sections in (the list `keys`, one entry per
caller, duplicates standing for racing callers of one category), the map
of a registry started with no categories afterwards holds exactly one
entry for every category observed and none for any other. -/
theorem c7_no_duplicate_creation (n h l : String) (c : Bool)
    (keys : List String) (k : String) :
    countKey k (runCreates (NewTimings n h l c []) keys).histograms
      = if k ∈ keys then 1 else 0 := by
  have hz : countKey k (NewTimings n h l c []).histograms = 0 := rfl
  rw [runCreates_countKey keys (NewTimings n h l c []) k, hz]
  simp
